import Mathlib

/-!
# hma-warden: a shallow embedding of `cmd/hma-warden/main.go`

The Go program is translated function by function.  Everything the cluster
API answers is an explicit input (`Clientset`, `Env`); everything the program
can change is a field of `State`; every way an operation can end (return,
runtime panic, `log.Fatal`) is an `Outcome`.
-/

namespace HmaWarden

/-! ## Data model -/

/-- Values of `watch.EventType` delivered by the API server. -/
inductive EventType
  | Added
  | Modified
  | Deleted
  | Bookmark
  | Error
  deriving DecidableEq, Repr

/-- Go string behind each `watch.EventType` constant, which is what `%s` prints. -/
def EventType.toString : EventType → String
  | .Added => "ADDED"
  | .Modified => "MODIFIED"
  | .Deleted => "DELETED"
  | .Bookmark => "BOOKMARK"
  | .Error => "ERROR"

/-- Dynamic type (and the identifying fields) of `event.Object`. -/
inductive Object
  | Namespace (name : String)
  | Service (ns : String) (name : String)
  | Pod (ns : String) (name : String)
  | Status (message : String)
  deriving DecidableEq, Repr

/-- One `watch.Event`. -/
structure Event where
  type : EventType
  object : Object
  deriving DecidableEq, Repr

/-- One element of a list response (`namespaces.Items`, `pods.Items`); only `Name` is read. -/
structure Item where
  name : String
  deriving DecidableEq, Repr

/-- Go `map[string]string` that has been allocated: association list with unique keys,
in insertion order. -/
structure Table where
  entries : List (String × String)
  deriving DecidableEq, Repr

/-- Keys of the map. -/
def Table.keys (t : Table) : List String :=
  t.entries.map Prod.fst

/-- Number of entries, Go `len(m)`. -/
def Table.size (t : Table) : Nat :=
  t.entries.length

/-- Assignment on a list of entries: overwrite the entry of `k`, or add one. -/
def assignEntries : List (String × String) → String → String → List (String × String)
  | [], k, v => [(k, v)]
  | (k0, v0) :: rest, k, v =>
    if k0 = k then (k0, v) :: rest else (k0, v0) :: assignEntries rest k v

/-- Go `m[k] = v` on an allocated map. -/
def Table.assign (t : Table) (k v : String) : Table :=
  ⟨assignEntries t.entries k v⟩

/-- Lookup on a list of entries. -/
def lookupEntries : List (String × String) → String → Option String
  | [], _ => none
  | (k0, v0) :: rest, k => if k0 = k then some v0 else lookupEntries rest k

/-- Go `v, ok := m[k]` on an allocated map. -/
def Table.get? (t : Table) (k : String) : Option String :=
  lookupEntries t.entries k

/-- Levels of logrus used by the program. -/
inductive Level
  | Info
  | Error
  | Fatal
  deriving DecidableEq, Repr

/-- One emitted log record. -/
structure LogRecord where
  level : Level
  message : String
  deriving DecidableEq, Repr

/-- Ghost record of a call to one of the two event handlers. -/
inductive Call
  | processNamespace (ns : String) (event : EventType)
  | processService (svc : String) (event : EventType)
  deriving DecidableEq, Repr

/-- Goroutine started by `main` with a `go` statement. -/
inductive Session
  | watchNamespaces
  | watchServices (ns : String)
  deriving DecidableEq, Repr

/-- Everything the program can change.  `podToAddr = none` is the nil map.  `wg` is the
counter of the `sync.WaitGroup` created in `main`; `calls` and `spawned` are ghost traces. -/
structure State where
  podToAddr : Option Table
  logs : List LogRecord
  calls : List Call
  wg : Nat
  spawned : List Session
  deriving DecidableEq, Repr

/-- State in which `main` starts: `var podToAddr map[string]string` is declared and never
assigned, so it is the nil map. -/
def initialState : State :=
  ⟨none, [], [], 0, []⟩

/-- Ways in which the process is brought down. -/
inductive Halt
  | nilMapAssignment
  | nilDereference
  | interfaceConversion
  | panicked (e : String)
  | fatal
  deriving DecidableEq, Repr

/-- Exit status of the process: 2 for a Go panic, 1 for `log.Fatal` (`os.Exit(1)`). -/
def Halt.exitCode : Halt → Nat
  | .fatal => 1
  | _ => 2

/-- How a call ends: it returns a value to its caller, or the process is brought down. -/
inductive Outcome (α : Type)
  | returned (a : α)
  | halted (h : Halt)
  deriving DecidableEq, Repr

/-- State after a call together with how the call ended. -/
structure Result (α : Type) where
  state : State
  outcome : Outcome α

/-- Sequencing: the continuation runs only when the first call returned. -/
def Result.andThen {α β : Type} (r : Result α) (k : α → State → Result β) : Result β :=
  match r.outcome with
  | .returned a => k a r.state
  | .halted h => ⟨r.state, .halted h⟩

/-- Answers of the cluster API to the calls the program makes.  A list call answers
with its items or an error message; a watch call answers with the events delivered
until the result channel is closed, or `none` when `Watch` returns `(nil, err)`. -/
structure Clientset where
  listNamespaces : Except String (List Item)
  listPods : String → Except String (List Item)
  watchNamespaces : Option (List Event)
  watchServices : String → Option (List Event)

/-- Answers of the two bootstrap calls of `main`: `clientcmd.BuildConfigFromFlags` and
`kubernetes.NewForConfig`. -/
structure Env where
  buildConfig : Except String Unit
  newForConfig : Except String Clientset

/-! ## Operations -/

/-- Emission of one logrus record. -/
def logrus (level : Level) (message : String) (s : State) : State :=
  { s with logs := s.logs ++ [⟨level, message⟩] }

/-- Loop `for _, x := range items { result = append(result, x.Name) }` from `var result []string`. -/
def collectNames (items : List Item) : List String :=
  items.foldl (fun result x => result ++ [x.name]) []

/-- Go `mustFetchNamespaces` (main.go 21-32). -/
def mustFetchNamespaces (clientset : Clientset) (s : State) : Result (List String) :=
  match clientset.listNamespaces with
  | .error e => ⟨logrus .Fatal ("failed to fetch namespaces: " ++ e) s, .halted .fatal⟩
  | .ok namespaces => ⟨s, .returned (collectNames namespaces)⟩

/-- Go `mustFetchPods` (main.go 34-48). -/
def mustFetchPods (ns : String) (clientset : Clientset) (s : State) : Result (List String) :=
  match clientset.listPods ns with
  | .error e => ⟨logrus .Fatal e s, .halted .fatal⟩
  | .ok pods => ⟨s, .returned (collectNames pods)⟩

/-- Statement `podToAddr[pod] = ""` (main.go 55): a write to the nil map panics. -/
def assignPod (pod : String) (s : State) : Result Unit :=
  match s.podToAddr with
  | none => ⟨s, .halted .nilMapAssignment⟩
  | some t => ⟨{ s with podToAddr := some (t.assign pod "") }, .returned ()⟩

/-- Inner loop of `registerPods` (main.go 54-56). -/
def registerPodNames : List String → State → Result Unit
  | [], s => ⟨s, .returned ()⟩
  | pod :: rest, s => (assignPod pod s).andThen (fun _ s1 => registerPodNames rest s1)

/-- Outer loop of `registerPods` (main.go 52-57). -/
def registerNamespaces (clientset : Clientset) : List String → State → Result Unit
  | [], s => ⟨s, .returned ()⟩
  | ns :: rest, s =>
    (mustFetchPods ns clientset s).andThen (fun pods s1 =>
      (registerPodNames pods s1).andThen (fun _ s2 =>
        registerNamespaces clientset rest s2))

/-- Go `registerPods` (main.go 50-58). -/
def registerPods (clientset : Clientset) (s : State) : Result Unit :=
  (mustFetchNamespaces clientset s).andThen (fun nss s1 => registerNamespaces clientset nss s1)

/-- Go `doAddressTranslationForPod` (main.go 60-63): the list result is dropped, `nil` is returned. -/
def doAddressTranslationForPod (_ns _podName : String) (_clientset : Clientset) (s : State) :
    Result (Option String) :=
  ⟨s, .returned none⟩

/-- Go `processNamespace` (main.go 101-103). -/
def processNamespace (ns : String) (event : EventType) (s : State) : State :=
  logrus .Info ("got event " ++ event.toString ++ " on namespace " ++ ns)
    { s with calls := s.calls ++ [.processNamespace ns event] }

/-- Go `processService` (main.go 105-107). -/
def processService (svc : String) (event : EventType) (s : State) : State :=
  logrus .Info ("got event " ++ event.toString ++ " on service " ++ svc)
    { s with calls := s.calls ++ [.processService svc event] }

/-- Body of the loop of `watchNamespaces` (main.go 70-79): the type assertion
`event.Object.(*corev1.Namespace)` panics on any other object, then the `switch`. -/
def namespaceEvent (event : Event) (s : State) : Result Unit :=
  match event.object with
  | .Namespace name =>
    match event.type with
    | .Modified => ⟨s, .returned ()⟩
    | .Bookmark => ⟨s, .returned ()⟩
    | .Error => ⟨s, .returned ()⟩
    | .Deleted => ⟨s, .returned ()⟩
    | .Added => ⟨processNamespace name event.type s, .returned ()⟩
  | _ => ⟨s, .halted .interfaceConversion⟩

/-- Loop `for event := range watcher.ResultChan()` of `watchNamespaces`. -/
def namespaceEvents : List Event → State → Result Unit
  | [], s => ⟨s, .returned ()⟩
  | event :: rest, s => (namespaceEvent event s).andThen (fun _ s1 => namespaceEvents rest s1)

/-- Go `watchNamespaces` (main.go 65-81): the error of `Watch` is dropped, and
`watcher.ResultChan()` on the nil watcher is a nil dereference. -/
def watchNamespaces (clientset : Clientset) (s : State) : Result Unit :=
  match clientset.watchNamespaces with
  | none => ⟨s, .halted .nilDereference⟩
  | some events => namespaceEvents events s

/-- Body of the loop of `watchServices` (main.go 88-97). -/
def serviceEvent (event : Event) (s : State) : Result Unit :=
  match event.object with
  | .Service _ name =>
    match event.type with
    | .Modified => ⟨s, .returned ()⟩
    | .Bookmark => ⟨s, .returned ()⟩
    | .Error => ⟨s, .returned ()⟩
    | .Deleted => ⟨s, .returned ()⟩
    | .Added => ⟨processService name event.type s, .returned ()⟩
  | _ => ⟨s, .halted .interfaceConversion⟩

/-- Loop `for event := range watcher.ResultChan()` of `watchServices`. -/
def serviceEvents : List Event → State → Result Unit
  | [], s => ⟨s, .returned ()⟩
  | event :: rest, s => (serviceEvent event s).andThen (fun _ s1 => serviceEvents rest s1)

/-- Go `watchServices` (main.go 83-99). -/
def watchServices (ns : String) (clientset : Clientset) (s : State) : Result Unit :=
  match clientset.watchServices ns with
  | none => ⟨s, .halted .nilDereference⟩
  | some events => serviceEvents events s

/-- Go `wg.Add(delta)`. -/
def wgAdd (delta : Nat) (s : State) : State :=
  { s with wg := s.wg + delta }

/-- Go statement `go f(...)`: the goroutine is recorded as started. -/
def spawn (session : Session) (s : State) : State :=
  { s with spawned := s.spawned ++ [session] }

/-- How the main goroutine ends: the process exits with a status, or `main` stays parked
in `wg.Wait()` because the counter is positive. -/
inductive MainEnd
  | exited (code : Nat)
  | blockedOnWait
  deriving DecidableEq, Repr

/-- Loop of main.go 130-133: one `wg.Add(1)` and one `go watchServices` per namespace. -/
def spawnServiceWatches (items : List Item) (s : State) : State :=
  items.foldl (fun s1 item => spawn (.watchServices item.name) (wgAdd 1 s1)) s

/-- Loop of main.go 136-138. -/
def translateAll (clientset : Clientset) (items : List Item) (s : State) : State :=
  items.foldl (fun s1 item => (doAddressTranslationForPod item.name "" clientset s1).state) s

/-- Go `main` (main.go 109-141), the main goroutine alone: goroutines are recorded by
`spawn` and run separately (`runSession`). -/
def main (env : Env) (s : State) : State × MainEnd :=
  match env.buildConfig with
  | .error e => (s, .exited (Halt.panicked e).exitCode)
  | .ok _ =>
    let s1 := logrus .Info "initialized config" s
    match env.newForConfig with
    | .error e => (s1, .exited (Halt.panicked e).exitCode)
    | .ok clientset =>
      let s2 := spawn .watchNamespaces (wgAdd 1 s1)
      match clientset.listNamespaces with
      | .error e =>
        (logrus .Error ("error occurred while listing namespaces: " ++ e) s2, .exited 0)
      | .ok items =>
        let s3 := spawnServiceWatches items s2
        let r := registerPods clientset s3
        match r.outcome with
        | .halted h => (r.state, .exited h.exitCode)
        | .returned _ =>
          let s4 := translateAll clientset items r.state
          if s4.wg = 0 then (s4, .exited 0) else (s4, .blockedOnWait)

/-- Body of a started goroutine, run to its end. -/
def runSession (clientset : Clientset) (session : Session) (s : State) : Result Unit :=
  match session with
  | .watchNamespaces => watchNamespaces clientset s
  | .watchServices ns => watchServices ns clientset s

/-- State after the given goroutines have each run to their end, one after the other
(a goroutine that panics is counted as ended). -/
def runSessions (clientset : Clientset) : List Session → State → State
  | [], s => s
  | session :: rest, s => runSessions clientset rest (runSession clientset session s).state

/-! ## Auxiliary definitions used to state the results -/

/-- Table after `m[p] = ""` for each name of the list, in order. -/
def assignAll (t : Table) (names : List String) : Table :=
  names.foldl (fun t1 p => t1.assign p "") t

/-- Pod names the listing holds, namespace after namespace. -/
def listedPods (nss : List String) (pods : String → List Item) : List String :=
  nss.flatMap (fun ns => (pods ns).map Item.name)

/-- Clientset whose every call succeeds and answers with nothing. -/
def quietClientset : Clientset :=
  ⟨.ok [], fun _ => .ok [], some [], fun _ => some []⟩

/-- Listing of the scenario: namespaces `default` and `kube-system`, each with pods `p1`, `p2`. -/
def scenarioClientset : Clientset :=
  ⟨.ok [⟨"default"⟩, ⟨"kube-system"⟩], fun _ => .ok [⟨"p1"⟩, ⟨"p2"⟩], some [], fun _ => some []⟩

/-- Initial state except that `podToAddr` holds an allocated, empty map. -/
def allocatedState : State :=
  { initialState with podToAddr := some ⟨[]⟩ }

/-- Event stream all of whose objects are Namespaces, from (type, name) pairs. -/
def namespaceStream (xs : List (EventType × String)) : List Event :=
  xs.map (fun x => ⟨x.1, .Namespace x.2⟩)

/-- Event stream all of whose objects are Services of `ns`, from (type, name) pairs. -/
def serviceStream (ns : String) (xs : List (EventType × String)) : List Event :=
  xs.map (fun x => ⟨x.1, .Service ns x.2⟩)

/-- Names carried by the Added events of a stream, in order. -/
def addedNames (xs : List (EventType × String)) : List String :=
  (xs.filter (fun x => x.1 = EventType.Added)).map Prod.snd

/-- Record shape in the words of the specification:
`event=<type> resource=<kind> namespace=<ns> name=<name>`. -/
def specLogRecord (type kind ns name : String) : String :=
  "event=" ++ type ++ " resource=" ++ kind ++ " namespace=" ++ ns ++ " name=" ++ name

/-- State after `handler` has run once for each Added event of the list, in order, on the
name and the type of that event; events of any other type contribute nothing. -/
def handleAdded (handler : String → EventType → State → State)
    (xs : List (EventType × String)) (s : State) : State :=
  xs.foldl (fun st x => if x.1 = EventType.Added then handler x.2 x.1 st else st) s

/-- Handler calls owed to a stream: one per Added event, in order, with the name and the
type of the event. -/
def addedCalls (mk : String → EventType → Call) (xs : List (EventType × String)) : List Call :=
  (xs.filter (fun x => x.1 = EventType.Added)).map (fun x => mk x.2 x.1)

/-! ## Shared lemmas -/

theorem foldl_collect (items : List Item) (acc : List String) :
    items.foldl (fun result x => result ++ [x.name]) acc = acc ++ items.map Item.name := by
  induction items generalizing acc with
  | nil => simp
  | cons x rest ih => simp [List.foldl_cons, ih]

theorem collectNames_eq_map (items : List Item) : collectNames items = items.map Item.name := by
  simp [collectNames, foldl_collect]

theorem lookup_assignEntries (l : List (String × String)) (k v k1 : String) :
    lookupEntries (assignEntries l k v) k1 = if k1 = k then some v else lookupEntries l k1 := by
  induction l with
  | nil =>
    by_cases h : k1 = k
    · simp [assignEntries, lookupEntries, h]
    · have h2 : ¬ k = k1 := fun e => h e.symm
      simp [assignEntries, lookupEntries, h, h2]
  | cons e rest ih =>
    obtain ⟨k0, v0⟩ := e
    by_cases h0 : k0 = k
    · subst h0
      by_cases h : k1 = k0
      · simp [assignEntries, lookupEntries, h]
      · have h2 : ¬ k0 = k1 := fun e => h e.symm
        simp [assignEntries, lookupEntries, h, h2]
    · by_cases h : k0 = k1
      · subst h
        simp [assignEntries, lookupEntries, h0]
      · simp [assignEntries, lookupEntries, h0, h, ih]

theorem keys_assignEntries (l : List (String × String)) (k v : String) :
    (assignEntries l k v).map Prod.fst =
      if k ∈ l.map Prod.fst then l.map Prod.fst else l.map Prod.fst ++ [k] := by
  induction l with
  | nil => simp [assignEntries]
  | cons e rest ih =>
    obtain ⟨k0, v0⟩ := e
    by_cases h0 : k0 = k
    · subst h0
      simp [assignEntries]
    · have h2 : ¬ k = k0 := fun e => h0 e.symm
      by_cases hm : k ∈ rest.map Prod.fst
      · simp only [assignEntries, h0, if_false, List.map_cons, ih, hm, if_true, List.mem_cons,
          or_true]
      · simp only [assignEntries, h0, if_false, List.map_cons, ih, hm, List.mem_cons, h2,
          or_self, List.cons_append]

theorem Table.get?_assign (t : Table) (k v k1 : String) :
    (t.assign k v).get? k1 = if k1 = k then some v else t.get? k1 :=
  lookup_assignEntries t.entries k v k1

theorem Table.mem_keys_assign (t : Table) (k v k1 : String) :
    k1 ∈ (t.assign k v).keys ↔ k1 = k ∨ k1 ∈ t.keys := by
  unfold Table.keys Table.assign
  rw [keys_assignEntries]
  by_cases hm : k ∈ t.entries.map Prod.fst
  · simp only [hm, if_true]
    constructor
    · exact Or.inr
    · rintro (h | h)
      · exact h ▸ hm
      · exact h
  · simp only [hm, if_false, List.mem_append, List.mem_singleton]
    tauto

theorem Table.nodup_keys_assign (t : Table) (k v : String) (h : t.keys.Nodup) :
    (t.assign k v).keys.Nodup := by
  unfold Table.keys Table.assign at *
  rw [keys_assignEntries]
  by_cases hm : k ∈ t.entries.map Prod.fst
  · simpa [hm] using h
  · simp only [hm, if_false]
    exact List.Nodup.append h (List.nodup_singleton k) (by simpa using hm)

theorem assignAll_append (t : Table) (xs ys : List String) :
    assignAll t (xs ++ ys) = assignAll (assignAll t xs) ys := by
  simp [assignAll, List.foldl_append]

theorem get?_assignAll (names : List String) (t : Table) (k : String) :
    (assignAll t names).get? k = if k ∈ names then some "" else t.get? k := by
  induction names generalizing t with
  | nil => simp [assignAll]
  | cons p rest ih =>
    have hstep : assignAll t (p :: rest) = assignAll (t.assign p "") rest := rfl
    rw [hstep, ih, Table.get?_assign]
    by_cases h1 : k ∈ rest
    · simp [h1]
    · by_cases h2 : k = p
      · simp [h2]
      · simp [h1, h2]

theorem mem_keys_assignAll (names : List String) (t : Table) (k : String) :
    k ∈ (assignAll t names).keys ↔ k ∈ names ∨ k ∈ t.keys := by
  induction names generalizing t with
  | nil => simp [assignAll]
  | cons p rest ih =>
    have hstep : assignAll t (p :: rest) = assignAll (t.assign p "") rest := rfl
    rw [hstep, ih, Table.mem_keys_assign]
    simp only [List.mem_cons]
    tauto

theorem nodup_keys_assignAll (names : List String) (t : Table) (h : t.keys.Nodup) :
    (assignAll t names).keys.Nodup := by
  induction names generalizing t with
  | nil => simpa [assignAll] using h
  | cons p rest ih =>
    have hstep : assignAll t (p :: rest) = assignAll (t.assign p "") rest := rfl
    rw [hstep]
    exact ih _ (Table.nodup_keys_assign t p "" h)

theorem registerPodNames_allocated (pods : List String) (t : Table) (s : State) :
    registerPodNames pods { s with podToAddr := some t } =
      ⟨{ s with podToAddr := some (assignAll t pods) }, .returned ()⟩ := by
  induction pods generalizing t with
  | nil => simp [registerPodNames, assignAll]
  | cons p rest ih =>
    have hstep : assignAll t (p :: rest) = assignAll (t.assign p "") rest := rfl
    simp only [registerPodNames, assignPod, Result.andThen, hstep]
    exact ih (t.assign p "")

theorem registerNamespaces_allocated (clientset : Clientset) (pods : String → List Item)
    (hp : ∀ ns, clientset.listPods ns = .ok (pods ns)) (nss : List String) (t : Table)
    (s : State) :
    registerNamespaces clientset nss { s with podToAddr := some t } =
      ⟨{ s with podToAddr := some (assignAll t (listedPods nss pods)) }, .returned ()⟩ := by
  induction nss generalizing t with
  | nil => simp [registerNamespaces, listedPods, assignAll]
  | cons ns rest ih =>
    have hl : listedPods (ns :: rest) pods = (pods ns).map Item.name ++ listedPods rest pods := by
      simp [listedPods]
    simp only [registerNamespaces, mustFetchPods, hp, Result.andThen, collectNames_eq_map,
      registerPodNames_allocated, hl, assignAll_append]
    exact ih _


theorem namespaceEvent_frame (event : Event) (s : State) :
    (namespaceEvent event s).state.podToAddr = s.podToAddr ∧
      (namespaceEvent event s).state.wg = s.wg ∧
      (namespaceEvent event s).state.spawned = s.spawned := by
  obtain ⟨ty, obj⟩ := event
  cases obj <;> cases ty <;> simp [namespaceEvent, processNamespace, logrus]

theorem serviceEvent_frame (event : Event) (s : State) :
    (serviceEvent event s).state.podToAddr = s.podToAddr ∧
      (serviceEvent event s).state.wg = s.wg ∧
      (serviceEvent event s).state.spawned = s.spawned := by
  obtain ⟨ty, obj⟩ := event
  cases obj <;> cases ty <;> simp [serviceEvent, processService, logrus]

theorem andThen_state_of_halted {α β : Type} (r : Result α) (k : α → State → Result β) (h : Halt)
    (hr : r.outcome = .halted h) : (r.andThen k).state = r.state := by
  simp [Result.andThen, hr]

theorem andThen_of_returned {α β : Type} (r : Result α) (k : α → State → Result β) (a : α)
    (hr : r.outcome = .returned a) : r.andThen k = k a r.state := by
  simp [Result.andThen, hr]

theorem namespaceEvents_frame (events : List Event) (s : State) :
    (namespaceEvents events s).state.podToAddr = s.podToAddr ∧
      (namespaceEvents events s).state.wg = s.wg ∧
      (namespaceEvents events s).state.spawned = s.spawned := by
  induction events generalizing s with
  | nil => simp [namespaceEvents]
  | cons event rest ih =>
    have hf := namespaceEvent_frame event s
    simp only [namespaceEvents]
    cases hr : (namespaceEvent event s).outcome with
    | returned a =>
      rw [andThen_of_returned _ _ a hr]
      have h2 := ih (namespaceEvent event s).state
      exact ⟨h2.1.trans hf.1, h2.2.1.trans hf.2.1, h2.2.2.trans hf.2.2⟩
    | halted h =>
      rw [andThen_state_of_halted _ _ h hr]
      exact hf

theorem serviceEvents_frame (events : List Event) (s : State) :
    (serviceEvents events s).state.podToAddr = s.podToAddr ∧
      (serviceEvents events s).state.wg = s.wg ∧
      (serviceEvents events s).state.spawned = s.spawned := by
  induction events generalizing s with
  | nil => simp [serviceEvents]
  | cons event rest ih =>
    have hf := serviceEvent_frame event s
    simp only [serviceEvents]
    cases hr : (serviceEvent event s).outcome with
    | returned a =>
      rw [andThen_of_returned _ _ a hr]
      have h2 := ih (serviceEvent event s).state
      exact ⟨h2.1.trans hf.1, h2.2.1.trans hf.2.1, h2.2.2.trans hf.2.2⟩
    | halted h =>
      rw [andThen_state_of_halted _ _ h hr]
      exact hf

theorem watchNamespaces_frame (clientset : Clientset) (s : State) :
    (watchNamespaces clientset s).state.podToAddr = s.podToAddr ∧
      (watchNamespaces clientset s).state.wg = s.wg ∧
      (watchNamespaces clientset s).state.spawned = s.spawned := by
  unfold watchNamespaces
  cases clientset.watchNamespaces with
  | none => simp
  | some events => exact namespaceEvents_frame events s

theorem watchServices_frame (ns : String) (clientset : Clientset) (s : State) :
    (watchServices ns clientset s).state.podToAddr = s.podToAddr ∧
      (watchServices ns clientset s).state.wg = s.wg ∧
      (watchServices ns clientset s).state.spawned = s.spawned := by
  unfold watchServices
  cases clientset.watchServices ns with
  | none => simp
  | some events => exact serviceEvents_frame events s

theorem runSession_frame (clientset : Clientset) (session : Session) (s : State) :
    (runSession clientset session s).state.podToAddr = s.podToAddr ∧
      (runSession clientset session s).state.wg = s.wg ∧
      (runSession clientset session s).state.spawned = s.spawned := by
  cases session with
  | watchNamespaces => exact watchNamespaces_frame clientset s
  | watchServices ns => exact watchServices_frame ns clientset s

theorem runSessions_frame (clientset : Clientset) (sessions : List Session) (s : State) :
    (runSessions clientset sessions s).podToAddr = s.podToAddr ∧
      (runSessions clientset sessions s).wg = s.wg := by
  induction sessions generalizing s with
  | nil => simp [runSessions]
  | cons session rest ih =>
    have hf := runSession_frame clientset session s
    have h2 := ih (runSession clientset session s).state
    simp only [runSessions]
    exact ⟨h2.1.trans hf.1, h2.2.trans hf.2.1⟩

theorem registerPodNames_frame (pods : List String) (s : State) :
    (registerPodNames pods s).state.wg = s.wg ∧
      (registerPodNames pods s).state.spawned = s.spawned ∧
      (registerPodNames pods s).state.logs = s.logs := by
  induction pods generalizing s with
  | nil => simp [registerPodNames]
  | cons p rest ih =>
    simp only [registerPodNames, assignPod]
    cases hp : s.podToAddr with
    | none => simp [Result.andThen]
    | some t =>
      simp only [Result.andThen]
      have h2 := ih { s with podToAddr := some (t.assign p "") }
      simpa using h2

theorem mustFetchPods_frame (ns : String) (clientset : Clientset) (s : State) :
    (mustFetchPods ns clientset s).state.podToAddr = s.podToAddr ∧
      (mustFetchPods ns clientset s).state.wg = s.wg ∧
      (mustFetchPods ns clientset s).state.spawned = s.spawned := by
  unfold mustFetchPods
  cases clientset.listPods ns <;> simp [logrus]

theorem mustFetchNamespaces_frame (clientset : Clientset) (s : State) :
    (mustFetchNamespaces clientset s).state.podToAddr = s.podToAddr ∧
      (mustFetchNamespaces clientset s).state.wg = s.wg ∧
      (mustFetchNamespaces clientset s).state.spawned = s.spawned := by
  unfold mustFetchNamespaces
  cases clientset.listNamespaces <;> simp [logrus]

theorem registerNamespaces_frame (clientset : Clientset) (nss : List String) (s : State) :
    (registerNamespaces clientset nss s).state.wg = s.wg ∧
      (registerNamespaces clientset nss s).state.spawned = s.spawned := by
  induction nss generalizing s with
  | nil => simp [registerNamespaces]
  | cons ns rest ih =>
    have hf := mustFetchPods_frame ns clientset s
    simp only [registerNamespaces]
    cases hr : (mustFetchPods ns clientset s).outcome with
    | halted h =>
      rw [andThen_state_of_halted _ _ h hr]
      exact ⟨hf.2.1, hf.2.2⟩
    | returned pods =>
      rw [andThen_of_returned _ _ pods hr]
      have hg := registerPodNames_frame pods (mustFetchPods ns clientset s).state
      cases hr2 : (registerPodNames pods (mustFetchPods ns clientset s).state).outcome with
      | halted h =>
        rw [andThen_state_of_halted _ _ h hr2]
        exact ⟨hg.1.trans hf.2.1, hg.2.1.trans hf.2.2⟩
      | returned u =>
        rw [andThen_of_returned _ _ u hr2]
        have h2 := ih (registerPodNames pods (mustFetchPods ns clientset s).state).state
        exact ⟨h2.1.trans (hg.1.trans hf.2.1), h2.2.trans (hg.2.1.trans hf.2.2)⟩

theorem registerPods_frame (clientset : Clientset) (s : State) :
    (registerPods clientset s).state.wg = s.wg ∧
      (registerPods clientset s).state.spawned = s.spawned := by
  have hf := mustFetchNamespaces_frame clientset s
  unfold registerPods
  cases hr : (mustFetchNamespaces clientset s).outcome with
  | halted h =>
    rw [andThen_state_of_halted _ _ h hr]
    exact ⟨hf.2.1, hf.2.2⟩
  | returned nss =>
    rw [andThen_of_returned _ _ nss hr]
    have h2 := registerNamespaces_frame clientset nss (mustFetchNamespaces clientset s).state
    exact ⟨h2.1.trans hf.2.1, h2.2.trans hf.2.2⟩

theorem spawnServiceWatches_eq (items : List Item) (s : State) :
    spawnServiceWatches items s =
      { s with
        wg := s.wg + items.length
        spawned := s.spawned ++ items.map (fun item => Session.watchServices item.name) } := by
  unfold spawnServiceWatches
  induction items generalizing s with
  | nil => simp
  | cons item rest ih =>
    rw [List.foldl_cons, ih]
    have h : s.wg + 1 + rest.length = s.wg + (rest.length + 1) := by omega
    simp only [spawn, wgAdd, List.length_cons, List.map_cons, List.append_assoc,
      List.singleton_append, h]

theorem translateAll_eq (clientset : Clientset) (items : List Item) (s : State) :
    translateAll clientset items s = s := by
  unfold translateAll
  induction items generalizing s with
  | nil => simp
  | cons item rest ih =>
    simp only [List.foldl_cons, doAddressTranslationForPod]
    exact ih s

theorem registerPodNames_nil (names : List String) (s : State) (h : s.podToAddr = none) :
    registerPodNames names s =
      ⟨s, if names = [] then .returned () else .halted .nilMapAssignment⟩ := by
  cases names with
  | nil => simp [registerPodNames]
  | cons p rest => simp [registerPodNames, assignPod, Result.andThen, h]

theorem registerNamespaces_nil (clientset : Clientset) (pods : String → List Item)
    (hp : ∀ ns, clientset.listPods ns = .ok (pods ns)) (nss : List String) (s : State)
    (h : s.podToAddr = none) :
    registerNamespaces clientset nss s =
      ⟨s, if listedPods nss pods = [] then .returned () else .halted .nilMapAssignment⟩ := by
  induction nss with
  | nil => simp [registerNamespaces, listedPods]
  | cons ns rest ih =>
    have hl : listedPods (ns :: rest) pods = (pods ns).map Item.name ++ listedPods rest pods := by
      simp [listedPods]
    simp only [registerNamespaces, mustFetchPods, hp, Result.andThen, collectNames_eq_map,
      registerPodNames_nil _ s h, hl]
    by_cases h1 : (pods ns).map Item.name = []
    · simp only [h1, if_true, List.nil_append]
      exact ih
    · simp [h1]

theorem namespaceEvents_stream (xs : List (EventType × String)) (s : State) :
    namespaceEvents (namespaceStream xs) s =
      ⟨{ s with
          logs := s.logs ++ (addedNames xs).map
            (fun n => ⟨Level.Info, "got event ADDED on namespace " ++ n⟩)
          calls := s.calls ++ (addedNames xs).map (fun n => Call.processNamespace n .Added) },
        .returned ()⟩ := by
  induction xs generalizing s with
  | nil => simp [namespaceStream, namespaceEvents, addedNames]
  | cons x rest ih =>
    obtain ⟨ty, name⟩ := x
    have hs : namespaceStream ((ty, name) :: rest) =
        ⟨ty, .Namespace name⟩ :: namespaceStream rest := rfl
    have hm : "got event " ++ EventType.Added.toString ++ " on namespace " =
        "got event ADDED on namespace " := by decide
    rw [hs]
    cases ty <;>
      simp [namespaceEvents, namespaceEvent, Result.andThen, ih, addedNames, processNamespace,
        logrus, hm, String.append_assoc]

theorem serviceEvents_stream (ns : String) (xs : List (EventType × String)) (s : State) :
    serviceEvents (serviceStream ns xs) s =
      ⟨{ s with
          logs := s.logs ++ (addedNames xs).map
            (fun n => ⟨Level.Info, "got event ADDED on service " ++ n⟩)
          calls := s.calls ++ (addedNames xs).map (fun n => Call.processService n .Added) },
        .returned ()⟩ := by
  induction xs generalizing s with
  | nil => simp [serviceStream, serviceEvents, addedNames]
  | cons x rest ih =>
    obtain ⟨ty, name⟩ := x
    have hs : serviceStream ns ((ty, name) :: rest) =
        ⟨ty, .Service ns name⟩ :: serviceStream ns rest := rfl
    have hm : "got event " ++ EventType.Added.toString ++ " on service " =
        "got event ADDED on service " := by decide
    rw [hs]
    cases ty <;>
      simp [serviceEvents, serviceEvent, Result.andThen, ih, addedNames, processService,
        logrus, hm, String.append_assoc]

/-! ## Results, claim by claim -/

/-- C1 (as stated, refuted): for the scenario listing (`default` and `kube-system`, each
with pods `p1` and `p2`) the table never ends with 4 entries.  From the nil map of the
initial state `registerPods` panics and the table stays nil; from an allocated empty map
it ends with the 2 entries `p1` and `p2`. -/
theorem registerPods_scenario_not_four_entries :
    (registerPods scenarioClientset initialState).outcome = .halted .nilMapAssignment ∧
      (registerPods scenarioClientset initialState).state.podToAddr = none ∧
      (registerPods scenarioClientset allocatedState).state.podToAddr =
        some ⟨[("p1", ""), ("p2", "")]⟩ ∧
      (registerPods scenarioClientset allocatedState).state.podToAddr.map Table.size = some 2 ∧
      (registerPods scenarioClientset allocatedState).state.podToAddr.map Table.size ≠ some 4 := by
  refine ⟨rfl, rfl, rfl, rfl, ?_⟩
  decide

/-- C1 (amended): for every listing whose calls all succeed, `registerPods` run on an
allocated empty table returns normally, changes nothing but the table, and leaves exactly
one entry per distinct listed pod name (the key is the pod name alone), each with the empty
address: keys are pairwise distinct, a key is present iff it is a listed pod name, every
present key maps to the empty string, and the number of entries is the number of
distinct listed pod names; for the scenario listing (`default` and `kube-system`, each
with pods `p1` and `p2`) that number is 2. -/
theorem registerPods_one_entry_per_pod_name (nss : List Item) (pods : String → List Item)
    (wn : Option (List Event)) (ws : String → Option (List Event)) (s : State) :
    (∃ t : Table,
      registerPods ⟨.ok nss, fun ns => .ok (pods ns), wn, ws⟩ { s with podToAddr := some ⟨[]⟩ } =
          ⟨{ s with podToAddr := some t }, .returned ()⟩ ∧
        t.keys.Nodup ∧
        (∀ k, k ∈ t.keys ↔ k ∈ listedPods (nss.map Item.name) pods) ∧
        (∀ k, k ∈ t.keys → t.get? k = some "") ∧
        t.size = (listedPods (nss.map Item.name) pods).dedup.length) ∧
      (listedPods ["default", "kube-system"] (fun _ => [⟨"p1"⟩, ⟨"p2"⟩])).dedup.length = 2 := by
  refine ⟨⟨assignAll ⟨[]⟩ (listedPods (nss.map Item.name) pods), ?_, ?_, ?_, ?_, ?_⟩, by decide⟩
  · simp only [registerPods, mustFetchNamespaces, Result.andThen, collectNames_eq_map]
    exact registerNamespaces_allocated _ pods (fun _ => rfl) _ _ s
  · exact nodup_keys_assignAll _ _ (by simp [Table.keys])
  · intro k
    rw [mem_keys_assignAll]
    simp [Table.keys]
  · intro k hk
    rw [mem_keys_assignAll] at hk
    rw [get?_assignAll]
    have hk2 : k ∈ listedPods (nss.map Item.name) pods := by
      simpa [Table.keys] using hk
    simp [hk2]
  · have hn := nodup_keys_assignAll (listedPods (nss.map Item.name) pods) ⟨[]⟩
      (by simp [Table.keys])
    have hperm : (assignAll ⟨[]⟩ (listedPods (nss.map Item.name) pods)).keys.Perm
        (listedPods (nss.map Item.name) pods).dedup := by
      rw [List.perm_ext_iff_of_nodup hn (List.nodup_dedup _)]
      intro k
      rw [mem_keys_assignAll, List.mem_dedup]
      simp [Table.keys]
    have hlen := hperm.length_eq
    simpa [Table.keys, Table.size] using hlen

/-- C2 (as stated, refuted): after the pods of the scenario are registered in an allocated
table, a Deleted event for namespace `kube-system` handled by `watchNamespaces` leaves the
entry of `p1`, a pod listed under `kube-system`, in the table. -/
theorem namespace_deleted_entry_survives :
    "p1" ∈ listedPods ["kube-system"] (fun _ => [⟨"p1"⟩, ⟨"p2"⟩]) ∧
      (watchNamespaces
          { scenarioClientset with
            watchNamespaces := some [⟨.Deleted, .Namespace "kube-system"⟩] }
          (registerPods scenarioClientset allocatedState).state).outcome = .returned () ∧
      ((watchNamespaces
          { scenarioClientset with
            watchNamespaces := some [⟨.Deleted, .Namespace "kube-system"⟩] }
          (registerPods scenarioClientset allocatedState).state).state.podToAddr.bind
            (fun t => t.get? "p1")) = some "" := by
  refine ⟨by decide, rfl, rfl⟩

/-- C2 (amended): a Deleted event for any namespace `ns` handled by the namespace watch
loop changes nothing: `watchNamespaces` returns with the state, and so the address table
with the entries of every namespace, exactly as it was; and within any stream the
Deleted event can be left out without changing the result. -/
theorem namespace_deleted_changes_nothing (ns : String) (clientset : Clientset)
    (before after : List Event) (s : State) :
    watchNamespaces { clientset with watchNamespaces := some [⟨.Deleted, .Namespace ns⟩] } s =
        ⟨s, .returned ()⟩ ∧
      watchNamespaces
          { clientset with
            watchNamespaces := some (before ++ ⟨.Deleted, .Namespace ns⟩ :: after) } s =
        watchNamespaces { clientset with watchNamespaces := some (before ++ after) } s := by
  constructor
  · simp [watchNamespaces, namespaceEvents, namespaceEvent, Result.andThen]
  · simp only [watchNamespaces]
    induction before generalizing s with
    | nil => simp [namespaceEvents, namespaceEvent, Result.andThen]
    | cons e rest ih =>
      simp only [List.cons_append, namespaceEvents, Result.andThen]
      cases (namespaceEvent e s).outcome with
      | returned a => exact ih _
      | halted h => rfl

/-- C3 (the code at the failing input): when config, client and the namespace listing
succeed with n listed namespaces, `main` starts 1+n sessions and adds 1+n to the join
counter; no session changes the counter, so after every started session has run to its
end the counter is still 1+n, never zero, and `main` does not exit with status 0. -/
theorem join_counter_stays_positive (clientset : Clientset) (items : List Item) (s : State) :
    (main ⟨.ok (), .ok { clientset with listNamespaces := .ok items }⟩ s).1.spawned =
        s.spawned ++ Session.watchNamespaces ::
          items.map (fun item => Session.watchServices item.name) ∧
      (main ⟨.ok (), .ok { clientset with listNamespaces := .ok items }⟩ s).1.wg =
        s.wg + 1 + items.length ∧
      (runSessions { clientset with listNamespaces := .ok items }
          (main ⟨.ok (), .ok { clientset with listNamespaces := .ok items }⟩ s).1.spawned
          (main ⟨.ok (), .ok { clientset with listNamespaces := .ok items }⟩ s).1).wg =
        s.wg + 1 + items.length ∧
      (main ⟨.ok (), .ok { clientset with listNamespaces := .ok items }⟩ s).2 ≠ .exited 0 := by
  have hmain : ∀ c : Clientset, c.listNamespaces = .ok items →
      (main ⟨.ok (), .ok c⟩ s).1.spawned =
          s.spawned ++ Session.watchNamespaces ::
            items.map (fun item => Session.watchServices item.name) ∧
        (main ⟨.ok (), .ok c⟩ s).1.wg = s.wg + 1 + items.length ∧
        (main ⟨.ok (), .ok c⟩ s).2 ≠ .exited 0 := by
    intro c hc
    have hf := registerPods_frame c
      (spawnServiceWatches items (spawn .watchNamespaces (wgAdd 1 (logrus .Info
        "initialized config" s))))
    rw [spawnServiceWatches_eq] at hf
    simp only [spawn, wgAdd, logrus, List.append_assoc, List.singleton_append] at hf
    simp only [main, hc, spawnServiceWatches_eq, translateAll_eq]
    simp only [spawn, wgAdd, logrus, List.append_assoc, List.singleton_append]
    cases hr : (registerPods c _).outcome with
    | halted h =>
      refine ⟨hf.2, hf.1, ?_⟩
      cases h <;> simp [Halt.exitCode]
    | returned u =>
      have hpos : ¬ (s.wg + 1 + items.length = 0) := by omega
      rw [if_neg (by rw [hf.1]; exact hpos)]
      exact ⟨hf.2, hf.1, by simp⟩
  obtain ⟨h1, h2, h3⟩ := hmain { clientset with listNamespaces := .ok items } rfl
  refine ⟨h1, h2, ?_, h3⟩
  rw [(runSessions_frame _ _ _).2]
  exact h2

/-- C4 (the code at the failing input): a failure of config loading or of client
construction ends `main` by a panic, exit status 2; a failure of the namespace listing
made by `main` itself is logged at error level and `main` returns, so the process
exits with status 0. -/
theorem listing_failure_exits_zero (e : String) (clientset : Clientset) (env : Env)
    (s : State) :
    (main { env with buildConfig := .error e } s).2 = .exited 2 ∧
      (main ⟨.ok (), .error e⟩ s).2 = .exited 2 ∧
      main ⟨.ok (), .ok { clientset with listNamespaces := .error e }⟩ s =
        (logrus .Error ("error occurred while listing namespaces: " ++ e)
            (spawn .watchNamespaces (wgAdd 1 (logrus .Info "initialized config" s))),
          .exited 0) := by
  refine ⟨?_, ?_, ?_⟩ <;> simp [main, Halt.exitCode]

/-- C5 (the code at the failing input): when `Watch` answers with an error and no
watcher, `watchNamespaces` and `watchServices` end by the nil-dereference panic of
`watcher.ResultChan()`, exit status 2, and the state is untouched: nothing is logged. -/
theorem watch_open_failure_panics (ns : String) (clientset : Clientset) (s : State) :
    watchNamespaces { clientset with watchNamespaces := none } s =
        ⟨s, .halted .nilDereference⟩ ∧
      watchServices ns
          { clientset with watchServices := Function.update clientset.watchServices ns none } s =
        ⟨s, .halted .nilDereference⟩ ∧
      Halt.nilDereference.exitCode = 2 := by
  refine ⟨?_, ?_, rfl⟩ <;> simp [watchNamespaces, watchServices]

/-- C6 (as stated, refuted): on a failing list call `mustFetchNamespaces` and
`mustFetchPods` do not return to their caller: the process is ended by `log.Fatal`. -/
theorem lister_failure_ends_process :
    (mustFetchNamespaces { quietClientset with listNamespaces := .error "timeout" }
        initialState).outcome = .halted .fatal ∧
      (mustFetchPods "default" { quietClientset with listPods := fun _ => .error "timeout" }
        initialState).outcome = .halted .fatal ∧
      Halt.fatal.exitCode = 1 := by
  refine ⟨rfl, rfl, rfl⟩

/-- C6 (amended): on a failing list call `mustFetchNamespaces` logs
`failed to fetch namespaces: <error>` and `mustFetchPods` logs the error, both at fatal
level, and the process ends with exit status 1 (`log.Fatal`), so nothing, partial or
not, is returned to the caller; on success they change nothing and return exactly the
names of the listed items in listing order. -/
theorem lister_fatal_or_names (e : String) (items : List Item) (ns : String)
    (clientset : Clientset) (s : State) :
    mustFetchNamespaces { clientset with listNamespaces := .error e } s =
        ⟨logrus .Fatal ("failed to fetch namespaces: " ++ e) s, .halted .fatal⟩ ∧
      mustFetchPods ns
          { clientset with listPods := Function.update clientset.listPods ns (.error e) } s =
        ⟨logrus .Fatal e s, .halted .fatal⟩ ∧
      Halt.fatal.exitCode = 1 ∧
      mustFetchNamespaces { clientset with listNamespaces := .ok items } s =
        ⟨s, .returned (items.map Item.name)⟩ ∧
      mustFetchPods ns
          { clientset with listPods := Function.update clientset.listPods ns (.ok items) } s =
        ⟨s, .returned (items.map Item.name)⟩ := by
  refine ⟨?_, ?_, rfl, ?_, ?_⟩ <;>
    simp [mustFetchNamespaces, mustFetchPods, collectNames_eq_map]

/-- C7 (as stated, refuted): a Modified and a Deleted event for namespace `default` emit
no log record, and the one record of an Added event is
`got event ADDED on namespace default`, which is not of the shape
`event=<type> resource=<kind> namespace=<ns> name=<name>`. -/
theorem watch_log_record_differs :
    (watchNamespaces
        { quietClientset with watchNamespaces := some [⟨.Modified, .Namespace "default"⟩] }
        initialState).state.logs = [] ∧
      (watchNamespaces
        { quietClientset with watchNamespaces := some [⟨.Deleted, .Namespace "default"⟩] }
        initialState).state.logs = [] ∧
      (watchNamespaces
        { quietClientset with watchNamespaces := some [⟨.Added, .Namespace "default"⟩] }
        initialState).state.logs = [⟨.Info, "got event ADDED on namespace default"⟩] ∧
      "got event ADDED on namespace default" ≠
        specLogRecord EventType.Added.toString "Namespace" "" "default" := by
  refine ⟨rfl, rfl, rfl, ?_⟩
  decide

/-- C7 (amended): over any stream of Namespace events (resp. Service events) the watch
loop returns having emitted exactly one info record per Added event, in order, reading
`got event ADDED on namespace <name>` (resp. `got event ADDED on service <name>`);
events of type Modified and Deleted (and Bookmark, Error) emit no record. -/
theorem watch_logs_one_record_per_added (xs : List (EventType × String)) (ns : String)
    (clientset : Clientset) (s : State) :
    (watchNamespaces { clientset with watchNamespaces := some (namespaceStream xs) }
        s).outcome = .returned () ∧
      (watchNamespaces { clientset with watchNamespaces := some (namespaceStream xs) }
        s).state.logs =
        s.logs ++ (addedNames xs).map
          (fun n => ⟨Level.Info, "got event ADDED on namespace " ++ n⟩) ∧
      (watchServices ns
        { clientset with
          watchServices := Function.update clientset.watchServices ns
            (some (serviceStream ns xs)) } s).outcome = .returned () ∧
      (watchServices ns
        { clientset with
          watchServices := Function.update clientset.watchServices ns
            (some (serviceStream ns xs)) } s).state.logs =
        s.logs ++ (addedNames xs).map
          (fun n => ⟨Level.Info, "got event ADDED on service " ++ n⟩) := by
  refine ⟨?_, ?_, ?_, ?_⟩ <;>
    simp [watchNamespaces, watchServices, namespaceEvents_stream, serviceEvents_stream]

/-- C8: single writer.  Whatever the watch answers (no watcher, or any sequence of events
of any type and object), `watchNamespaces`, `watchServices`, their loops and the
handlers `processNamespace` and `processService` leave the address table exactly as it
was, and so do the listers and `doAddressTranslationForPod`; `main` leaves the table as
it was or as `registerPods` left it; `registerPods` does write it. -/
theorem address_table_single_writer :
    (∀ (clientset : Clientset) (s : State),
        (watchNamespaces clientset s).state.podToAddr = s.podToAddr) ∧
      (∀ (ns : String) (clientset : Clientset) (s : State),
        (watchServices ns clientset s).state.podToAddr = s.podToAddr) ∧
      (∀ (events : List Event) (s : State),
        (namespaceEvents events s).state.podToAddr = s.podToAddr ∧
          (serviceEvents events s).state.podToAddr = s.podToAddr) ∧
      (∀ (name : String) (event : EventType) (s : State),
        (processNamespace name event s).podToAddr = s.podToAddr ∧
          (processService name event s).podToAddr = s.podToAddr) ∧
      (∀ (ns podName : String) (clientset : Clientset) (s : State),
        (mustFetchNamespaces clientset s).state.podToAddr = s.podToAddr ∧
          (mustFetchPods ns clientset s).state.podToAddr = s.podToAddr ∧
          (doAddressTranslationForPod ns podName clientset s).state.podToAddr = s.podToAddr) ∧
      (∀ (env : Env) (s : State),
        (main env s).1.podToAddr = s.podToAddr ∨
          ∃ (clientset : Clientset) (s1 : State), s1.podToAddr = s.podToAddr ∧
            (main env s).1.podToAddr = (registerPods clientset s1).state.podToAddr) ∧
      (registerPods scenarioClientset allocatedState).state.podToAddr ≠
        allocatedState.podToAddr := by
  refine ⟨fun c s => (watchNamespaces_frame c s).1, fun ns c s => (watchServices_frame ns c s).1,
    fun events s => ⟨(namespaceEvents_frame events s).1, (serviceEvents_frame events s).1⟩,
    fun name event s => ⟨rfl, rfl⟩,
    fun ns podName c s => ⟨(mustFetchNamespaces_frame c s).1, (mustFetchPods_frame ns c s).1, rfl⟩,
    ?_, by decide⟩
  intro env s
  obtain ⟨cfg, cl⟩ := env
  cases cfg with
  | error e => exact Or.inl rfl
  | ok u =>
    cases cl with
    | error e => exact Or.inl rfl
    | ok c =>
      cases hl : c.listNamespaces with
      | error e =>
        left
        simp [main, hl, logrus, spawn, wgAdd]
      | ok items =>
        right
        refine ⟨c, spawnServiceWatches items (spawn .watchNamespaces (wgAdd 1 (logrus .Info
          "initialized config" s))), ?_, ?_⟩
        · rw [spawnServiceWatches_eq]
          rfl
        · simp only [main, hl, translateAll_eq]
          cases (registerPods c _).outcome with
          | halted h => rfl
          | returned a =>
            simp only []
            split <;> rfl

/-- C9 (the code at the failing input): from a state whose `podToAddr` is the nil map, as
in the initial state of the program, `registerPods` on a successful listing returns
only when the listing holds no pod at all; when it holds at least one pod it ends by the
panic `assignment to entry in nil map` with the table still nil.  So it is for the one
pod `p1` of namespace `default`, and `main` then exits with status 2. -/
theorem registerPods_nil_map_panics (nss : List Item) (pods : String → List Item)
    (wn : Option (List Event)) (ws : String → Option (List Event)) (s : State) :
    registerPods ⟨.ok nss, fun ns => .ok (pods ns), wn, ws⟩ { s with podToAddr := none } =
        ⟨{ s with podToAddr := none },
          if listedPods (nss.map Item.name) pods = [] then .returned ()
          else .halted .nilMapAssignment⟩ ∧
      initialState.podToAddr = none ∧
      (registerPods ⟨.ok [⟨"default"⟩], fun _ => .ok [⟨"p1"⟩], wn, ws⟩ initialState).outcome =
        .halted .nilMapAssignment ∧
      (main ⟨.ok (), .ok ⟨.ok [⟨"default"⟩], fun _ => .ok [⟨"p1"⟩], wn, ws⟩⟩ initialState).2 =
        .exited 2 := by
  refine ⟨?_, rfl, rfl, rfl⟩
  simp only [registerPods, mustFetchNamespaces, Result.andThen, collectNames_eq_map]
  exact registerNamespaces_nil _ pods (fun _ => rfl) _ _ rfl

theorem eventStep_handler_iff_added (ty : EventType) (ns name : String) (s : State) :
    namespaceEvent ⟨ty, .Namespace name⟩ s =
        ⟨if ty = .Added then processNamespace name ty s else s, .returned ()⟩ ∧
      ((namespaceEvent ⟨ty, .Namespace name⟩ s).state.calls =
          s.calls ++ [.processNamespace name ty] ↔ ty = .Added) ∧
      ((namespaceEvent ⟨ty, .Namespace name⟩ s).state = s ↔ ty ≠ .Added) ∧
      serviceEvent ⟨ty, .Service ns name⟩ s =
        ⟨if ty = .Added then processService name ty s else s, .returned ()⟩ ∧
      ((serviceEvent ⟨ty, .Service ns name⟩ s).state.calls =
          s.calls ++ [.processService name ty] ↔ ty = .Added) ∧
      ((serviceEvent ⟨ty, .Service ns name⟩ s).state = s ↔ ty ≠ .Added) := by
  have hne : ∀ (l : List Call) (c : Call), l ≠ l ++ [c] := by
    intro l c h
    have := congrArg List.length h
    simp at this
  have hst : ∀ (t : State), t.calls = s.calls ++ [Call.processNamespace name .Added] → t ≠ s := by
    intro t ht h
    rw [h] at ht
    exact hne _ _ ht
  have hst2 : ∀ (t : State), t.calls = s.calls ++ [Call.processService name .Added] → t ≠ s := by
    intro t ht h
    rw [h] at ht
    exact hne _ _ ht
  cases ty
  case Added =>
    refine ⟨rfl, ⟨fun _ => rfl, fun _ => rfl⟩, ⟨fun h => absurd h (hst _ rfl), fun h => absurd rfl h⟩,
      rfl, ⟨fun _ => rfl, fun _ => rfl⟩, ⟨fun h => absurd h (hst2 _ rfl), fun h => absurd rfl h⟩⟩
  all_goals
    refine ⟨rfl, ⟨fun h => absurd h (hne _ _), fun h => by cases h⟩,
      ⟨fun _ => by decide, fun _ => rfl⟩, rfl,
      ⟨fun h => absurd h (hne _ _), fun h => by cases h⟩, ⟨fun _ => by decide, fun _ => rfl⟩⟩

theorem namespaceEvents_stream_append (xs : List (EventType × String)) (rest : List Event)
    (s : State) :
    namespaceEvents (namespaceStream xs ++ rest) s =
      namespaceEvents rest (handleAdded processNamespace xs s) := by
  induction xs generalizing s with
  | nil => rfl
  | cons x more ih =>
    obtain ⟨ty, name⟩ := x
    have hs : namespaceStream ((ty, name) :: more) ++ rest =
        ⟨ty, .Namespace name⟩ :: (namespaceStream more ++ rest) := rfl
    rw [hs]
    cases ty <;>
      simp only [namespaceEvents, namespaceEvent, Result.andThen, handleAdded, List.foldl_cons,
        if_true, reduceCtorEq, if_false] <;>
      exact ih _

theorem serviceEvents_stream_append (ns : String) (xs : List (EventType × String))
    (rest : List Event) (s : State) :
    serviceEvents (serviceStream ns xs ++ rest) s =
      serviceEvents rest (handleAdded processService xs s) := by
  induction xs generalizing s with
  | nil => rfl
  | cons x more ih =>
    obtain ⟨ty, name⟩ := x
    have hs : serviceStream ns ((ty, name) :: more) ++ rest =
        ⟨ty, .Service ns name⟩ :: (serviceStream ns more ++ rest) := rfl
    rw [hs]
    cases ty <;>
      simp only [serviceEvents, serviceEvent, Result.andThen, handleAdded, List.foldl_cons,
        if_true, reduceCtorEq, if_false] <;>
      exact ih _

theorem handleAdded_calls (handler : String → EventType → State → State)
    (mk : String → EventType → Call)
    (hh : ∀ n ty st, (handler n ty st).calls = st.calls ++ [mk n ty])
    (xs : List (EventType × String)) (s : State) :
    (handleAdded handler xs s).calls = s.calls ++ addedCalls mk xs := by
  induction xs generalizing s with
  | nil => simp [handleAdded, addedCalls]
  | cons x more ih =>
    obtain ⟨ty, name⟩ := x
    have hstep : handleAdded handler ((ty, name) :: more) s =
        handleAdded handler more (if ty = .Added then handler name ty s else s) := rfl
    rw [hstep, ih]
    by_cases h : ty = .Added
    · simp [h, hh, addedCalls]
    · simp [h, addedCalls]

theorem mem_addedCalls (mk : String → EventType → Call)
    (hinj : ∀ n ty n1 ty1, mk n ty = mk n1 ty1 → n = n1 ∧ ty = ty1)
    (xs : List (EventType × String)) (name : String) (ty : EventType) :
    mk name ty ∈ addedCalls mk xs ↔ (ty, name) ∈ xs ∧ ty = .Added := by
  unfold addedCalls
  simp only [List.mem_map, List.mem_filter, decide_eq_true_eq]
  constructor
  · rintro ⟨⟨ty1, n1⟩, ⟨hx, ha⟩, he⟩
    obtain ⟨h1, h2⟩ := hinj _ _ _ _ he
    simp only at h1 h2 ha
    subst h1
    subst h2
    exact ⟨hx, ha⟩
  · rintro ⟨hx, ha⟩
    exact ⟨(ty, name), ⟨hx, ha⟩, rfl⟩

/-- C10: for every stream delivered to `watchNamespaces` (resp. `watchServices`) whose
first events all carry a Namespace (resp. a Service of the watched namespace), whatever
follows them, the loop has, once past those events, run `processNamespace` (resp.
`processService`) exactly once for each Added one, in order, on the name of its object and
its type, and has done nothing for those of type Modified, Bookmark, Error and Deleted;
when the whole stream is of that kind the function returns in that state.  The handler
calls recorded are those of the Added events alone: a call with a given name and type is
among them iff an event of that name and type is in the stream and its type is Added.
For a single delivered event the function returns in the state the handler produces when
the type is Added and in the state it started from otherwise, and the state is
unchanged iff the type is not Added. -/
theorem watch_invokes_handler_iff_added (xs : List (EventType × String)) (rest : List Event)
    (ty : EventType) (ns name : String) (clientset : Clientset) (s : State) :
    (watchNamespaces { clientset with watchNamespaces := some (namespaceStream xs ++ rest) } s =
        namespaceEvents rest (handleAdded processNamespace xs s) ∧
      watchNamespaces { clientset with watchNamespaces := some (namespaceStream xs) } s =
        ⟨handleAdded processNamespace xs s, .returned ()⟩ ∧
      (handleAdded processNamespace xs s).calls =
        s.calls ++ addedCalls Call.processNamespace xs ∧
      (Call.processNamespace name ty ∈ addedCalls Call.processNamespace xs ↔
        (ty, name) ∈ xs ∧ ty = .Added) ∧
      watchNamespaces { clientset with watchNamespaces := some [⟨ty, .Namespace name⟩] } s =
        ⟨if ty = .Added then processNamespace name ty s else s, .returned ()⟩ ∧
      ((watchNamespaces { clientset with watchNamespaces := some [⟨ty, .Namespace name⟩] }
          s).state = s ↔ ty ≠ .Added)) ∧
    (watchServices ns
          { clientset with
            watchServices := Function.update clientset.watchServices ns
              (some (serviceStream ns xs ++ rest)) } s =
        serviceEvents rest (handleAdded processService xs s) ∧
      watchServices ns
          { clientset with
            watchServices := Function.update clientset.watchServices ns
              (some (serviceStream ns xs)) } s =
        ⟨handleAdded processService xs s, .returned ()⟩ ∧
      (handleAdded processService xs s).calls =
        s.calls ++ addedCalls Call.processService xs ∧
      (Call.processService name ty ∈ addedCalls Call.processService xs ↔
        (ty, name) ∈ xs ∧ ty = .Added) ∧
      watchServices ns
          { clientset with
            watchServices := Function.update clientset.watchServices ns
              (some [⟨ty, .Service ns name⟩]) } s =
        ⟨if ty = .Added then processService name ty s else s, .returned ()⟩ ∧
      ((watchServices ns
          { clientset with
            watchServices := Function.update clientset.watchServices ns
              (some [⟨ty, .Service ns name⟩]) } s).state = s ↔ ty ≠ .Added)) := by
  have hstep := eventStep_handler_iff_added ty ns name s
  obtain ⟨hn1, -, hn3, hs1, -, hs3⟩ := hstep
  have hnsingle : namespaceEvents [⟨ty, .Namespace name⟩] s =
      ⟨if ty = .Added then processNamespace name ty s else s, .returned ()⟩ := by
    simp only [namespaceEvents, hn1, Result.andThen]
  have hssingle : serviceEvents [⟨ty, .Service ns name⟩] s =
      ⟨if ty = .Added then processService name ty s else s, .returned ()⟩ := by
    simp only [serviceEvents, hs1, Result.andThen]
  have hn1s : (namespaceEvent ⟨ty, .Namespace name⟩ s).state =
      if ty = .Added then processNamespace name ty s else s := by rw [hn1]
  have hs1s : (serviceEvent ⟨ty, .Service ns name⟩ s).state =
      if ty = .Added then processService name ty s else s := by rw [hs1]
  refine ⟨⟨?_, ?_, ?_, ?_, ?_, ?_⟩, ⟨?_, ?_, ?_, ?_, ?_, ?_⟩⟩
  · simp only [watchNamespaces]
    exact namespaceEvents_stream_append xs rest s
  · have h := namespaceEvents_stream_append xs [] s
    simp only [List.append_nil, namespaceEvents] at h
    simp only [watchNamespaces]
    exact h
  · exact handleAdded_calls processNamespace Call.processNamespace
      (fun n ty st => by simp [processNamespace, logrus]) xs s
  · exact mem_addedCalls Call.processNamespace
      (fun n ty n1 ty1 h => by cases h; exact ⟨rfl, rfl⟩) xs name ty
  · simp only [watchNamespaces]
    exact hnsingle
  · simp only [watchNamespaces, hnsingle]
    rw [← hn1s]
    exact hn3
  · simp only [watchServices, Function.update_same]
    exact serviceEvents_stream_append ns xs rest s
  · have h := serviceEvents_stream_append ns xs [] s
    simp only [List.append_nil, serviceEvents] at h
    simp only [watchServices, Function.update_same]
    exact h
  · exact handleAdded_calls processService Call.processService
      (fun n ty st => by simp [processService, logrus]) xs s
  · exact mem_addedCalls Call.processService
      (fun n ty n1 ty1 h => by cases h; exact ⟨rfl, rfl⟩) xs name ty
  · simp only [watchServices, Function.update_same]
    exact hssingle
  · simp only [watchServices, Function.update_same, hssingle]
    rw [← hs1s]
    exact hs3

end HmaWarden
